import Mathlib

/-!
Verification of the Shakespeare word-frequency coordination system
(`messages.py`, `coordinator.py`): a shallow embedding of the message
codec, the work-tracking ledger and the coordinator request handler,
together with proofs about the claimed properties of the system.

Streams (`TextIOBase`) are modelled as lists of lines, where each line
carries its trailing newline character (Python's `readline` convention:
a blank line is `"\n"`, end-of-file is `""`).  Python `dict`s are
modelled as association lists in insertion order, Python `set`s as
duplicate-free lists, and `random.choice` is modelled by indexing with
an arbitrary seed.  A raised exception is modelled with `Except`.
-/

namespace Shakespeare

/-! ## Python string primitives -/

/-- The whitespace characters recognised by Python's `str.split()`. -/
def isSpace (c : Char) : Bool :=
  c = ' ' || c = '\t' || c = '\n' || c = '\x0d' || c = '\x0b' || c = '\x0c'

/-- Does the character list `s` start with the character list `p`?
(List-level model of Python's `str.startswith`.) -/
def startsWithL : List Char → List Char → Bool
  | _, [] => true
  | [], _ :: _ => false
  | c :: cs, d :: ds => c == d && startsWithL cs ds

/-- Python's `str.startswith`. -/
def pyStartsWith (s p : String) : Bool :=
  startsWithL s.data p.data

/-- Helper for `pyFind`: the first index at or after `i` where `sub`
occurs in `s`, if any. -/
def findFrom (sub : List Char) : List Char → Nat → Option Nat
  | [], i => if startsWithL [] sub then some i else none
  | c :: cs, i =>
    if startsWithL (c :: cs) sub then some i else findFrom sub cs (i + 1)

/-- Python's `str.find`: the first index of `sub` in `s`, or `-1`. -/
def pyFind (s sub : String) : Int :=
  match findFrom sub.data s.data 0 with
  | some i => (i : Int)
  | none => -1

/-- Accumulator-style splitter behind `pySplit`. -/
def splitWsAux : List Char → List Char → List String
  | [], acc => if acc = [] then [] else [⟨acc⟩]
  | c :: cs, acc =>
    if isSpace c then
      if acc = [] then splitWsAux cs [] else ⟨acc⟩ :: splitWsAux cs []
    else
      splitWsAux cs (acc ++ [c])

/-- Python's `str.split()` with no arguments: split on runs of
whitespace, discarding empty tokens. -/
def pySplit (s : String) : List String :=
  splitWsAux s.data []

/-- Accumulator-style splitter behind `toLines`. -/
def splitLinesAux : List Char → List Char → List String
  | [], acc => if acc = [] then [] else [⟨acc⟩]
  | c :: cs, acc =>
    if c = '\n' then ⟨acc ++ ['\n']⟩ :: splitLinesAux cs []
    else splitLinesAux cs (acc ++ [c])

/-- Split a string into lines, each line keeping its trailing `'\n'`
(the final line may lack one).  This converts a serialized message into
the stream of lines that `readline` yields. -/
def toLines (s : String) : List String :=
  splitLinesAux s.data []

/-- `readline` on a stream of lines: the next line, or `""` at
end-of-file, together with the rest of the stream. -/
def readline : List String → String × List String
  | [] => ("", [])
  | l :: ls => (l, ls)

/-! ## Python integer parsing and printing -/

/-- Value accumulation for `parsePyNat`: consume decimal digits with
single underscores allowed between digits, as Python's `int` does. -/
def parseNatAux (acc : Nat) : List Char → Option Nat
  | [] => some acc
  | c :: cs =>
    if c.isDigit then parseNatAux (acc * 10 + (c.toNat - 48)) cs
    else if c = '_' then
      match cs with
      | [] => none
      | d :: ds =>
        if d.isDigit then parseNatAux (acc * 10 + (d.toNat - 48)) ds else none
    else none

/-- Parse an unsigned decimal integer the way Python's `int` does
(nonempty, starts and ends with a digit, single underscores allowed
between digits). -/
def parsePyNat : List Char → Option Nat
  | [] => none
  | c :: cs => if c.isDigit then parseNatAux (c.toNat - 48) cs else none

/-- Python's `int(token)` on a whitespace-free token: an optional sign
followed by an unsigned decimal integer; `none` models a raised
`ValueError`. -/
def parsePyInt (s : String) : Option Int :=
  match s.data with
  | [] => none
  | c :: cs =>
    if c = '-' then (parsePyNat cs).map (fun n => -(n : Int))
    else if c = '+' then (parsePyNat cs).map (fun n => (n : Int))
    else (parsePyNat (c :: cs)).map (fun n => (n : Int))

/-- Fuelled worker for `natToDec` (fuel keeps the recursion structural,
so that the kernel can evaluate it). -/
def natToDecAux : Nat → Nat → List Char → List Char
  | 0, _, acc => acc
  | fuel + 1, n, acc =>
    if n < 10 then Nat.digitChar n :: acc
    else natToDecAux fuel (n / 10) (Nat.digitChar (n % 10) :: acc)

/-- The decimal digits of `n`, most significant first (model of Python's
`str`/`%s`/`%d` on a non-negative integer). -/
def natToDec (n : Nat) : List Char :=
  natToDecAux (n + 1) n []

/-- Python's `"%d" % i`: decimal rendering of an integer with a leading
minus sign when negative. -/
def intToDec (i : Int) : String :=
  if i < 0 then ⟨'-' :: natToDec i.natAbs⟩ else ⟨natToDec i.natAbs⟩

/-! ## Python dict primitives -/

/-- `d.get(k, default)` on an association-list model of a `dict`. -/
def dictGet (d : List (String × Int)) (k : String) (dflt : Int) : Int :=
  match d.find? (fun p => p.1 = k) with
  | some p => p.2
  | none => dflt

/-- `d[k] = v` on an association-list model of a `dict`: overwrite in
place if the key exists, otherwise append. -/
def dictSet (d : List (String × Int)) (k : String) (v : Int) :
    List (String × Int) :=
  if d.any (fun p => p.1 = k) then
    d.map (fun p => if p.1 = k then (k, v) else p)
  else
    d ++ [(k, v)]

/-! ## The message codec (`messages.py`)

Each Python message class becomes a constructor of the `Message`
inductive; `serialize` follows each class's `serialize` method and
`Message.deserialize` follows the dispatch method plus the per-class
`deserialize` methods.  `Except Unit` models a raised `ValueError`. -/

/-- Decidable equality for raised-or-returned results, so that concrete
runs of the fallible operations can be checked by evaluation. -/
instance {α β : Type} [DecidableEq α] [DecidableEq β] :
    DecidableEq (Except α β) := fun a b =>
  match a, b with
  | .error x, .error y =>
      if h : x = y then isTrue (by rw [h]) else isFalse (by simp [h])
  | .ok x, .ok y =>
      if h : x = y then isTrue (by rw [h]) else isFalse (by simp [h])
  | .error _, .ok _ => isFalse (by simp)
  | .ok _, .error _ => isFalse (by simp)

/-- The tagged union of application-layer messages. -/
inductive Message where
  | HTTPGetRequest (host path : String)
  | GetWorkRequest
  | GetWorkResponse (host path : String)
  | WorkCompleteRequest (path : String) (word_counts : List (String × Int))
  | WorkCompleteResponse
deriving DecidableEq

/-- The body lines of `WorkCompleteRequest.serialize`: one
`"word count\n"` line per dict entry, in insertion order. -/
def wcBody : List (String × Int) → String
  | [] => ""
  | (word, count) :: rest => word ++ " " ++ intToDec count ++ "\n" ++ wcBody rest

/-- `serialize` of each message class in `messages.py`. -/
def Message.serialize : Message → String
  | .HTTPGetRequest host path =>
      "GET " ++ path ++ " HTTP/1.1\x0d\n" ++ "Host: " ++ host ++ "\x0d\n" ++ "\x0d\n"
  | .GetWorkRequest => "REQWORK" ++ "\n"
  | .GetWorkResponse host path =>
      "ACK_REQWORK " ++
        (if host.length > 0 ∧ path.length > 0 then
          "Download and analyze the following.\n" ++
            "Host: " ++ host ++ "\n" ++ "Path: " ++ path ++ "\n"
        else
          "There\x27s no work left.\n")
  | .WorkCompleteRequest path word_counts =>
      "REQ_WORK_COMP " ++ path ++ "\n" ++ wcBody word_counts ++ "\n"
  | .WorkCompleteResponse => "ACK_WORK_COMP" ++ "\n"

/-- `HTTPGetRequest.deserialize`. -/
def deserializeHTTPGet (firstline : String) (rest : List String) :
    Except Unit Message :=
  if pyStartsWith firstline "GET " then
    match pySplit firstline with
    | [_, path, _] =>
      let (line, _) := readline rest
      match pySplit line with
      | [name, value] =>
        if name = "Host:" then .ok (.HTTPGetRequest value path) else .error ()
      | _ => .error ()
    | _ => .error ()
  else .error ()

/-- `GetWorkRequest.deserialize`. -/
def deserializeGetWork (firstline : String) (_rest : List String) :
    Except Unit Message :=
  if pyStartsWith firstline "REQWORK" then .ok .GetWorkRequest else .error ()

/-- The `while len(line) > 0` loop of `GetWorkResponse.deserialize`,
with `host`/`path` the values accumulated so far. -/
def gwrLoop (host path : String) : List String → Except Unit Message
  | [] => .error ()
  | line :: rest =>
    if line.length > 0 then
      match pySplit line with
      | [key, value] =>
        if key = "Host:" then
          if value.length > 0 ∧ path.length > 0 then
            .ok (.GetWorkResponse value path)
          else gwrLoop value path rest
        else if key = "Path:" then
          if host.length > 0 ∧ value.length > 0 then
            .ok (.GetWorkResponse host value)
          else gwrLoop host value rest
        else
          if host.length > 0 ∧ path.length > 0 then
            .ok (.GetWorkResponse host path)
          else gwrLoop host path rest
      | _ => .error ()
    else .error ()

/-- `GetWorkResponse.deserialize`. -/
def deserializeGetWorkResponse (firstline : String) (rest : List String) :
    Except Unit Message :=
  if pyStartsWith firstline "ACK_REQWORK " then
    if pyFind firstline "There\x27s no work left" > 0 then
      .ok (.GetWorkResponse "" "")
    else gwrLoop "" "" rest
  else .error ()

/-- The `while line != "\n"` loop of `WorkCompleteRequest.deserialize`,
with `wc` the dict accumulated so far. -/
def wcrLoop (path : String) (wc : List (String × Int)) :
    List String → Except Unit Message
  | [] => .error ()
  | line :: rest =>
    if line = "\n" then .ok (.WorkCompleteRequest path wc)
    else
      match pySplit line with
      | [word, count] =>
        match parsePyInt count with
        | some c => wcrLoop path (dictSet wc word c) rest
        | none => .error ()
      | _ => .error ()

/-- `WorkCompleteRequest.deserialize`. -/
def deserializeWorkComplete (firstline : String) (rest : List String) :
    Except Unit Message :=
  if pyStartsWith firstline "REQ_WORK_COMP " then
    match pySplit firstline with
    | [_, path] => wcrLoop path [] rest
    | _ => .error ()
  else .error ()

/-- `WorkCompleteResponse.deserialize`. -/
def deserializeWorkCompleteResponse (firstline : String)
    (_rest : List String) : Except Unit Message :=
  if pyStartsWith firstline "ACK_WORK_COMP" then
    .ok .WorkCompleteResponse
  else .error ()

/-- `Message.deserialize`: read the first line, dispatch on its literal
firstline fragment in the fixed source order, and delegate to the
matching class deserializer. -/
def Message.deserialize (msg : List String) : Except Unit Message :=
  let (firstline, rest) := readline msg
  if pyStartsWith firstline "GET " then
    deserializeHTTPGet firstline rest
  else if pyStartsWith firstline "REQWORK" then
    deserializeGetWork firstline rest
  else if pyStartsWith firstline "ACK_REQWORK " then
    deserializeGetWorkResponse firstline rest
  else if pyStartsWith firstline "REQ_WORK_COMP " then
    deserializeWorkComplete firstline rest
  else if pyStartsWith firstline "ACK_WORK_COMP" then
    deserializeWorkCompleteResponse firstline rest
  else .error ()

/-! ## The work ledger (`coordinator.py`, class `WorkTracker`)

Python `set`s of paths become duplicate-free `List String` values (the
absence of duplicates is an invariant, proved below, not baked into the
type); the `word_counts` dict is an association list.
`random.choice(list(s))` is modelled by indexing the list with an
arbitrary `seed` modulo its length, so every choice the Python code can
make is some value of `seed`. -/

/-- The state of a `WorkTracker`. -/
structure WorkTracker where
  play_download_host : String
  play_ids : List Nat
  word_counts : List (String × Int)
  unstarted_paths : List String
  started_paths : List String
  finished_paths : List String
deriving DecidableEq

/-- `s.add(x)` on the list model of a Python set. -/
def setAdd (l : List String) (x : String) : List String :=
  if x ∈ l then l else l ++ [x]

/-- `random.choice` on a list, driven by a seed. -/
def choiceList (l : List String) (seed : Nat) : String :=
  l.getD (seed % l.length) ""

/-- The fixed list of Gutenberg play ids from `WorkTracker.__init__`. -/
def play_ids : List Nat := [1513, 27761, 23042, 1533, 1531, 1522, 1526, 1515]

/-- `"/cache/epub/%s/pg%s.txt" % (i, i)`. -/
def play_path (i : Nat) : String :=
  "/cache/epub/" ++ ⟨natToDec i⟩ ++ "/pg" ++ ⟨natToDec i⟩ ++ ".txt"

/-- `WorkTracker.__init__`: all configured paths unstarted, the other
sets and the frequency table empty. -/
def initTracker : WorkTracker where
  play_download_host := "www.gutenberg.org"
  play_ids := play_ids
  word_counts := []
  unstarted_paths := (play_ids.map play_path).foldl setAdd []
  started_paths := []
  finished_paths := []

/-- `WorkTracker.get_path_for_volunteer`: hand out a random unstarted
path (moving it to started), else re-issue a random started path
unchanged, else return the empty path. -/
def get_path_for_volunteer (t : WorkTracker) (seed : Nat) :
    String × WorkTracker :=
  if t.unstarted_paths.length > 0 then
    let path := choiceList t.unstarted_paths seed
    (path,
      { t with
        unstarted_paths := t.unstarted_paths.erase path
        started_paths := setAdd t.started_paths path })
  else if t.started_paths.length > 0 then
    (choiceList t.started_paths seed, t)
  else
    ("", t)

/-- The merge loop of `WorkTracker.process_result`:
`self.word_counts[word] = self.word_counts.get(word, 0) + int(count)`
for each reported entry in order. -/
def mergeCounts (d : List (String × Int)) :
    List (String × Int) → List (String × Int)
  | [] => d
  | (word, count) :: rest => mergeCounts (dictSet d word (dictGet d word 0 + count)) rest

/-- `WorkTracker.process_result`.  A path already finished is ignored;
otherwise the counts are merged and the path moved started→finished.
`self.started_paths.remove(path)` raises `KeyError` when the path is
not in the started set, after the counts were already merged: the
`.error` result carries the tracker state left behind by the raised
exception (counts merged, sets untouched). -/
def process_result (t : WorkTracker) (path : String)
    (word_counts : List (String × Int)) : Except WorkTracker WorkTracker :=
  if path ∈ t.finished_paths then .ok t
  else
    let merged := mergeCounts t.word_counts word_counts
    if path ∈ t.started_paths then
      .ok { t with
            word_counts := merged
            started_paths := t.started_paths.erase path
            finished_paths := setAdd t.finished_paths path }
    else
      .error { t with word_counts := merged }

/-- `WorkTracker.is_all_work_done`. -/
def is_all_work_done (t : WorkTracker) : Bool :=
  t.finished_paths.length = t.play_ids.length

/-! ## The coordinator request handler (`coordinator.py`, class
`Coordinator`) -/

/-- Outcome of `Coordinator.handle_request` on one connection: either a
normal return carrying the shutdown flag, the new tracker state and the
response written to the connection, or a `raised` outcome when an
exception escapes the handler (terminating the accept loop), carrying
the tracker state left behind. -/
inductive HandleOutcome where
  | ok (shutdown : Bool) (t : WorkTracker) (response : String)
  | raised (t : WorkTracker)
deriving DecidableEq

/-- `Coordinator.handle_request`: decode one request from the
connection and dispatch it.  A `ValueError` from decoding is caught
(no response written); a `GetWorkRequest` is answered from
`get_path_for_volunteer`; a `WorkCompleteRequest` goes to
`process_result` and is acknowledged, but an exception raised there is
not caught; any other message kind gets no response. -/
def handle_request (t : WorkTracker) (input : List String) (seed : Nat) :
    HandleOutcome :=
  match Message.deserialize input with
  | .error _ => .ok false t ""
  | .ok .GetWorkRequest =>
      let (path, t') := get_path_for_volunteer t seed
      .ok (path = "") t'
        (Message.serialize (.GetWorkResponse t.play_download_host path))
  | .ok (.WorkCompleteRequest path word_counts) =>
      match process_result t path word_counts with
      | .ok t' => .ok false t' (Message.serialize .WorkCompleteResponse)
      | .error t' => .raised t'
  | .ok _ => .ok false t ""

/-! ## Sequences of ledger operations

For the temporal claim the ledger is driven by an arbitrary
interleaving of the two mutating operations. -/

/-- One ledger operation: an `assign` (a `get_path_for_volunteer` call
with its random choice fixed by `seed`) or a `merge`
(a `process_result` call). -/
inductive LedgerOp where
  | assign (seed : Nat)
  | merge (path : String) (word_counts : List (String × Int))

/-- The tracker state after a `process_result` call, whether or not it
raised. -/
def processState (t : WorkTracker) (path : String)
    (word_counts : List (String × Int)) : WorkTracker :=
  match process_result t path word_counts with
  | .ok t' => t'
  | .error t' => t'

/-- Run one ledger operation; the second component is the path returned
when the operation was an `assign`. -/
def stepOp (t : WorkTracker) : LedgerOp → WorkTracker × Option String
  | .assign seed =>
      ((get_path_for_volunteer t seed).2, some (get_path_for_volunteer t seed).1)
  | .merge path word_counts => (processState t path word_counts, none)

/-- Run a sequence of ledger operations, collecting the paths returned
by the `assign` operations in order. -/
def runOps (t : WorkTracker) : List LedgerOp → WorkTracker × List String
  | [] => (t, [])
  | op :: ops =>
    ((runOps (stepOp t op).1 ops).1,
      (stepOp t op).2.toList ++ (runOps (stepOp t op).1 ops).2)

/-- The fixed list of configured unit paths. -/
def configPaths : List String :=
  (play_ids.map play_path).foldl setAdd []

/-! ## Set-model helper lemmas -/

theorem setAdd_mem (l : List String) (p x : String) :
    x ∈ setAdd l p ↔ x = p ∨ x ∈ l := by
  unfold setAdd
  split
  · rename_i hp
    constructor
    · exact fun h => Or.inr h
    · rintro (rfl | h) <;> assumption
  · simp [List.mem_append, or_comm]

theorem setAdd_nodup {l : List String} (h : l.Nodup) (p : String) :
    (setAdd l p).Nodup := by
  unfold setAdd
  split
  · exact h
  · rename_i hp
    simpa [List.nodup_append] using ⟨h, hp⟩

theorem choiceList_mem {l : List String} (h : l ≠ []) (seed : Nat) :
    choiceList l seed ∈ l := by
  have hlen : seed % l.length < l.length :=
    Nat.mod_lt _ (List.length_pos.mpr h)
  unfold choiceList
  rw [List.getD_eq_getElem _ _ hlen]
  exact List.getElem_mem _

/-- Claim C1: `get_path_for_volunteer` follows the three-case policy:
with an unstarted path available it returns a member of the unstarted
set and moves exactly that path from unstarted to started, leaving the
finished set and the frequency table alone; otherwise, with a started
path available, it returns a member of the started set and changes
nothing; otherwise it returns the empty path and changes nothing. -/
theorem assign_three_case_policy (t : WorkTracker) (seed : Nat)
    (hnd : t.unstarted_paths.Nodup) :
    (t.unstarted_paths ≠ [] →
      (get_path_for_volunteer t seed).1 ∈ t.unstarted_paths ∧
      (∀ x, x ∈ (get_path_for_volunteer t seed).2.unstarted_paths ↔
        x ∈ t.unstarted_paths ∧ x ≠ (get_path_for_volunteer t seed).1) ∧
      (∀ x, x ∈ (get_path_for_volunteer t seed).2.started_paths ↔
        x = (get_path_for_volunteer t seed).1 ∨ x ∈ t.started_paths) ∧
      (get_path_for_volunteer t seed).2.finished_paths = t.finished_paths ∧
      (get_path_for_volunteer t seed).2.word_counts = t.word_counts) ∧
    (t.unstarted_paths = [] → t.started_paths ≠ [] →
      (get_path_for_volunteer t seed).1 ∈ t.started_paths ∧
      (get_path_for_volunteer t seed).2 = t) ∧
    (t.unstarted_paths = [] → t.started_paths = [] →
      get_path_for_volunteer t seed = ("", t)) := by
  refine ⟨?_, ?_, ?_⟩
  · intro hne
    have hlen : t.unstarted_paths.length > 0 := List.length_pos.mpr hne
    simp only [get_path_for_volunteer, if_pos hlen]
    refine ⟨choiceList_mem hne seed, ?_, ?_, by trivial, by trivial⟩
    · intro x
      rw [hnd.mem_erase_iff]
      tauto
    · intro x
      exact setAdd_mem _ _ _
  · intro hu hs
    have hlenu : ¬ t.unstarted_paths.length > 0 := by simp [hu]
    have hlens : t.started_paths.length > 0 := List.length_pos.mpr hs
    simp only [get_path_for_volunteer, if_neg hlenu, if_pos hlens]
    exact ⟨choiceList_mem hs seed, by trivial⟩
  · intro hu hs
    have hlenu : ¬ t.unstarted_paths.length > 0 := by simp [hu]
    have hlens : ¬ t.started_paths.length > 0 := by simp [hs]
    simp only [get_path_for_volunteer, if_neg hlenu, if_neg hlens]

/-- Witness for C1: the policy theorem applied to the freshly
initialized tracker, where the first case fires. -/
theorem assign_three_case_policy_witness :
    (get_path_for_volunteer initTracker 7).1 ∈ initTracker.unstarted_paths ∧
    (get_path_for_volunteer initTracker 7).2.finished_paths
      = initTracker.finished_paths :=
  ⟨((assign_three_case_policy initTracker 7 (by decide)).1 (by decide)).1,
   ((assign_three_case_policy initTracker 7 (by decide)).1 (by decide)).2.2.2.1⟩

/-- Claim C2: merging is idempotent per unit.  A report for a path
already finished leaves the tracker untouched, and a first report for a
started path merges the counts and moves the path to finished, after
which a second report with the same path changes nothing. -/
theorem merge_report_idempotent (t : WorkTracker) (id : String)
    (wc₁ wc₂ : List (String × Int)) :
    (id ∈ t.finished_paths → process_result t id wc₁ = .ok t) ∧
    (id ∈ t.started_paths → id ∉ t.finished_paths →
      ∃ t', process_result t id wc₁ = .ok t' ∧
        t'.word_counts = mergeCounts t.word_counts wc₁ ∧
        t'.finished_paths = setAdd t.finished_paths id ∧
        process_result t' id wc₂ = .ok t') := by
  constructor
  · intro h
    simp [process_result, h]
  · intro hs hf
    refine ⟨{ t with
        word_counts := mergeCounts t.word_counts wc₁
        started_paths := t.started_paths.erase id
        finished_paths := setAdd t.finished_paths id }, ?_, rfl, rfl, ?_⟩
    · simp [process_result, hs, hf]
    · have hmem : id ∈ setAdd t.finished_paths id :=
        (setAdd_mem _ _ _).mpr (Or.inl rfl)
      simp [process_result, hmem]

/-- Witness for C2 at a concrete two-unit tracker: a report for the
finished path `"b"` is a no-op, and a double report for the started
path `"a"` changes the table only once. -/
theorem merge_report_idempotent_witness :
    (process_result
        { play_download_host := "", play_ids := [], word_counts := [],
          unstarted_paths := [], started_paths := ["a"],
          finished_paths := ["b"] } "b" [("x", 1)] =
      .ok { play_download_host := "", play_ids := [], word_counts := [],
            unstarted_paths := [], started_paths := ["a"],
            finished_paths := ["b"] }) ∧
    (∃ t', process_result
        { play_download_host := "", play_ids := [], word_counts := [],
          unstarted_paths := [], started_paths := ["a"],
          finished_paths := ["b"] } "a" [("x", 1)] = .ok t' ∧
      t'.word_counts = mergeCounts [] [("x", 1)] ∧
      t'.finished_paths = setAdd ["b"] "a" ∧
      process_result t' "a" [("y", 2)] = .ok t') :=
  ⟨(merge_report_idempotent _ "b" [("x", 1)] [("y", 2)]).1 (by decide),
   (merge_report_idempotent _ "a" [("x", 1)] [("y", 2)]).2 (by decide) (by decide)⟩

/-- Claim C4 (code bug): a report for a path outside the fixed unit set
is not a silent no-op.  The code first merges the counts into the
frequency table and then raises `KeyError` from
`self.started_paths.remove(path)`: evaluated on the initial tracker and
the unknown path `"bogus"`, `process_result` raises with the table
already changed. -/
theorem merge_unknown_path_raises :
    process_result initTracker "bogus" [("foo", 1)] =
      .error { initTracker with word_counts := [("foo", 1)] } := by decide

/-- Claim C6 (code bug): a successfully decoded `WorkCompleteRequest`
for a path the ledger has not handed out makes `handle_request` raise
an uncaught `KeyError` (so no `WorkCompleteResponse` is written and the
accept loop dies), with the report's counts already merged into the
frequency table. -/
theorem handle_unassigned_report_raises :
    handle_request initTracker ["REQ_WORK_COMP /bogus\n", "foo 2\n", "\n"] 0 =
      .raised { initTracker with word_counts := [("foo", 2)] } := by decide

/-! ## The partition invariant (claim C3) -/

/-- The ledger well-formedness invariant: the three state lists are
genuine sets (no duplicates), pairwise disjoint, and their union is
exactly the fixed configured path set. -/
def WF (t : WorkTracker) : Prop :=
  t.unstarted_paths.Nodup ∧ t.started_paths.Nodup ∧ t.finished_paths.Nodup ∧
  (∀ x ∈ t.unstarted_paths, x ∉ t.started_paths) ∧
  (∀ x ∈ t.unstarted_paths, x ∉ t.finished_paths) ∧
  (∀ x ∈ t.started_paths, x ∉ t.finished_paths) ∧
  (∀ x ∈ t.unstarted_paths, x ∈ configPaths) ∧
  (∀ x ∈ t.started_paths, x ∈ configPaths) ∧
  (∀ x ∈ t.finished_paths, x ∈ configPaths) ∧
  (∀ x ∈ configPaths,
    x ∈ t.unstarted_paths ∨ x ∈ t.started_paths ∨ x ∈ t.finished_paths)

instance (t : WorkTracker) : Decidable (WF t) := by
  unfold WF
  infer_instance

theorem WF_assign {t : WorkTracker} (h : WF t) (seed : Nat) :
    WF (get_path_for_volunteer t seed).2 := by
  obtain ⟨hnu, hns, hnf, dus, duf, dsf, cu, cs, cf, cov⟩ := h
  unfold get_path_for_volunteer
  split
  · rename_i hlen
    have hne : t.unstarted_paths ≠ [] := by
      intro h0
      rw [h0] at hlen
      simp at hlen
    set p := choiceList t.unstarted_paths seed with hp
    have hpmem : p ∈ t.unstarted_paths := choiceList_mem hne seed
    refine ⟨hnu.erase p, setAdd_nodup hns p, hnf, ?_, ?_, ?_, ?_, ?_, cf, ?_⟩
    · intro x hx hx'
      have h1 := (hnu.mem_erase_iff).mp hx
      rcases (setAdd_mem _ _ _).mp hx' with rfl | hxs
      · exact h1.1 rfl
      · exact dus x h1.2 hxs
    · intro x hx
      exact duf x (List.mem_of_mem_erase hx)
    · intro x hx hx'
      rcases (setAdd_mem _ _ _).mp hx with rfl | hxs
      · exact duf p hpmem hx'
      · exact dsf x hxs hx'
    · intro x hx
      exact cu x (List.mem_of_mem_erase hx)
    · intro x hx
      rcases (setAdd_mem _ _ _).mp hx with rfl | hxs
      · exact cu p hpmem
      · exact cs x hxs
    · intro x hx
      rcases cov x hx with hxu | hxs | hxf
      · by_cases hxp : x = p
        · exact Or.inr (Or.inl ((setAdd_mem _ _ _).mpr (Or.inl hxp)))
        · exact Or.inl ((List.mem_erase_of_ne hxp).mpr hxu)
      · exact Or.inr (Or.inl ((setAdd_mem _ _ _).mpr (Or.inr hxs)))
      · exact Or.inr (Or.inr hxf)
  · split
    · exact ⟨hnu, hns, hnf, dus, duf, dsf, cu, cs, cf, cov⟩
    · exact ⟨hnu, hns, hnf, dus, duf, dsf, cu, cs, cf, cov⟩

theorem WF_merge {t : WorkTracker} (h : WF t) (p : String)
    (wc : List (String × Int)) : WF (processState t p wc) := by
  obtain ⟨hnu, hns, hnf, dus, duf, dsf, cu, cs, cf, cov⟩ := h
  by_cases hf : p ∈ t.finished_paths
  · simp only [processState, process_result, if_pos hf]
    exact ⟨hnu, hns, hnf, dus, duf, dsf, cu, cs, cf, cov⟩
  · by_cases hs : p ∈ t.started_paths
    · simp only [processState, process_result, if_neg hf, if_pos hs]
      refine ⟨hnu, hns.erase p, setAdd_nodup hnf p, ?_, ?_, ?_, cu, ?_, ?_, ?_⟩
      · intro x hx hx'
        exact dus x hx (List.mem_of_mem_erase hx')
      · intro x hx hx'
        rcases (setAdd_mem _ _ _).mp hx' with rfl | hxf
        · exact dus x hx hs
        · exact duf x hx hxf
      · intro x hx hx'
        have h1 := (hns.mem_erase_iff).mp hx
        rcases (setAdd_mem _ _ _).mp hx' with rfl | hxf
        · exact h1.1 rfl
        · exact dsf x h1.2 hxf
      · intro x hx
        exact cs x (List.mem_of_mem_erase hx)
      · intro x hx
        rcases (setAdd_mem _ _ _).mp hx with rfl | hxf
        · exact cs x hs
        · exact cf x hxf
      · intro x hx
        rcases cov x hx with hxu | hxs | hxf
        · exact Or.inl hxu
        · by_cases hxp : x = p
          · exact Or.inr (Or.inr ((setAdd_mem _ _ _).mpr (Or.inl hxp)))
          · exact Or.inr (Or.inl ((List.mem_erase_of_ne hxp).mpr hxs))
        · exact Or.inr (Or.inr ((setAdd_mem _ _ _).mpr (Or.inr hxf)))
    · simp only [processState, process_result, if_neg hf, if_neg hs]
      exact ⟨hnu, hns, hnf, dus, duf, dsf, cu, cs, cf, cov⟩

/-- Claim C3: the partition invariant holds initially and is preserved
by every ledger operation — after each `get_path_for_volunteer` and
each `process_result` (raising or not) the three state sets are still
duplicate-free, pairwise disjoint and together exactly the fixed
configured path set, which therefore never grows or shrinks. -/
theorem ledger_partition_invariant :
    WF initTracker ∧
    (∀ t seed, WF t → WF (get_path_for_volunteer t seed).2) ∧
    (∀ t p wc, WF t → WF (processState t p wc)) :=
  ⟨by decide, fun _ seed h => WF_assign h seed, fun _ p wc h => WF_merge h p wc⟩

/-- Witness for C3: the invariant theorem applied to the initial
tracker, one assignment and one (unknown-path) merge. -/
theorem ledger_partition_invariant_witness :
    WF (get_path_for_volunteer initTracker 3).2 ∧
    WF (processState initTracker "/x" [("w", 4)]) :=
  ⟨ledger_partition_invariant.2.1 initTracker 3 (by decide),
   ledger_partition_invariant.2.2 initTracker "/x" [("w", 4)] (by decide)⟩

/-! ## Temporal coverage of `assign_next` (claim C7) -/

theorem processState_unstarted (t : WorkTracker) (p : String)
    (wc : List (String × Int)) :
    (processState t p wc).unstarted_paths = t.unstarted_paths := by
  by_cases hf : p ∈ t.finished_paths
  · simp [processState, process_result, hf]
  · by_cases hs : p ∈ t.started_paths
    · simp [processState, process_result, hf, hs]
    · simp [processState, process_result, hf, hs]

/-- The part of the invariant the coverage argument needs: unstarted
and started paths are configured paths. -/
def SubCfg (t : WorkTracker) : Prop :=
  (∀ x ∈ t.unstarted_paths, x ∈ configPaths) ∧
  (∀ x ∈ t.started_paths, x ∈ configPaths)

theorem SubCfg_assign {t : WorkTracker} (h : SubCfg t) (seed : Nat) :
    SubCfg (get_path_for_volunteer t seed).2 := by
  obtain ⟨hu, hs⟩ := h
  unfold get_path_for_volunteer
  split
  · rename_i hlen
    have hne : t.unstarted_paths ≠ [] := by
      intro h0
      rw [h0] at hlen
      simp at hlen
    constructor
    · intro x hx
      exact hu x (List.mem_of_mem_erase hx)
    · intro x hx
      rcases (setAdd_mem _ _ _).mp hx with rfl | hxs
      · exact hu _ (choiceList_mem hne seed)
      · exact hs x hxs
  · split
    · exact ⟨hu, hs⟩
    · exact ⟨hu, hs⟩

theorem SubCfg_merge {t : WorkTracker} (h : SubCfg t) (p : String)
    (wc : List (String × Int)) : SubCfg (processState t p wc) := by
  obtain ⟨hu, hs⟩ := h
  by_cases hf : p ∈ t.finished_paths
  · simpa [processState, process_result, hf] using ⟨hu, hs⟩
  · by_cases hst : p ∈ t.started_paths
    · simp only [processState, process_result, if_neg hf, if_pos hst]
      exact ⟨hu, fun x hx => hs x (List.mem_of_mem_erase hx)⟩
    · simpa [processState, process_result, hf, hst] using ⟨hu, hs⟩

/-- When an unstarted path exists, the assignment takes the first
branch. -/
theorem assign_of_unstarted_ne {t : WorkTracker} {seed : Nat}
    (hne : t.unstarted_paths ≠ []) :
    (get_path_for_volunteer t seed).1 = choiceList t.unstarted_paths seed ∧
    (get_path_for_volunteer t seed).2.unstarted_paths
      = t.unstarted_paths.erase (choiceList t.unstarted_paths seed) := by
  have hlen : t.unstarted_paths.length > 0 := List.length_pos.mpr hne
  simp [get_path_for_volunteer, if_pos hlen]

theorem assign_output_cases (t : WorkTracker) (seed : Nat) :
    (get_path_for_volunteer t seed).1 ∈ t.unstarted_paths ∨
    (get_path_for_volunteer t seed).1 ∈ t.started_paths ∨
    (get_path_for_volunteer t seed).1 = "" := by
  unfold get_path_for_volunteer
  split
  · rename_i hlen
    refine Or.inl (choiceList_mem ?_ seed)
    intro h0
    rw [h0] at hlen
    simp at hlen
  · split
    · rename_i hlen
      refine Or.inr (Or.inl (choiceList_mem ?_ seed))
      intro h0
      rw [h0] at hlen
      simp at hlen
    · exact Or.inr (Or.inr rfl)

theorem empty_not_config : "" ∉ configPaths := by decide

/-- Every non-empty path an operation sequence makes `assign_next`
return is a configured path. -/
theorem runOps_outputs_config (ops : List LedgerOp) :
    ∀ t, SubCfg t → ∀ o ∈ (runOps t ops).2, o ≠ "" → o ∈ configPaths := by
  induction ops with
  | nil =>
    intro t _ o ho _
    simp [runOps] at ho
  | cons op ops ih =>
    intro t h o ho hne
    cases op with
    | assign seed =>
      simp only [runOps, stepOp, Option.toList, List.mem_cons,
        List.mem_append, List.mem_singleton] at ho
      rcases ho with (rfl | habs) | ho
      · rcases assign_output_cases t seed with hc | hc | hc
        · exact h.1 _ hc
        · exact h.2 _ hc
        · exact absurd hc hne
      · exact absurd habs (List.not_mem_nil o)
      · exact ih _ (SubCfg_assign h seed) o ho hne
    | merge q wc =>
      simp only [runOps, stepOp, Option.toList, List.nil_append] at ho
      exact ih _ (SubCfg_merge h q wc) o ho hne

/-- Every path still unstarted when an operation sequence starts is
returned by some `assign_next` strictly before any `assign_next` in the
sequence returns the no-work signal. -/
theorem runOps_covers (ops : List LedgerOp) :
    ∀ t, SubCfg t → ∀ pre post, (runOps t ops).2 = pre ++ "" :: post →
      ∀ p ∈ t.unstarted_paths, p ∈ pre := by
  induction ops with
  | nil =>
    intro t _ pre post heq
    exact absurd heq (by simp [runOps])
  | cons op ops ih =>
    intro t h pre post heq p hp
    have hne : t.unstarted_paths ≠ [] := by
      intro h0
      rw [h0] at hp
      simp at hp
    cases op with
    | merge q wc =>
      simp only [runOps, stepOp, Option.toList, List.nil_append] at heq
      refine ih _ (SubCfg_merge h q wc) pre post heq p ?_
      rw [processState_unstarted]
      exact hp
    | assign seed =>
      obtain ⟨hout, hunst⟩ := @assign_of_unstarted_ne t seed hne
      have hchoice : choiceList t.unstarted_paths seed ∈ t.unstarted_paths :=
        choiceList_mem hne seed
      simp only [runOps, stepOp, Option.toList, List.singleton_append] at heq
      cases pre with
      | nil =>
        rw [List.nil_append] at heq
        have h1 : (get_path_for_volunteer t seed).1 = "" :=
          (List.cons_eq_cons.mp heq).1
        rw [hout] at h1
        rw [h1] at hchoice
        exact absurd (h.1 _ hchoice) empty_not_config
      | cons q pre' =>
        rw [List.cons_append] at heq
        obtain ⟨hq, hrest⟩ := List.cons_eq_cons.mp heq
        by_cases hpq : p = (get_path_for_volunteer t seed).1
        · rw [← hq, ← hpq]
          exact List.mem_cons_self _ _
        · refine List.mem_cons_of_mem _ ?_
          refine ih _ (SubCfg_assign h seed) pre' post hrest p ?_
          rw [hunst, ← hout]
          exact (List.mem_erase_of_ne hpq).mpr hp

/-- Claim C7: starting from the freshly initialized ledger, for every
interleaving of `assign_next` and `merge_report` operations, every
configured unit path is returned by some `assign_next` before any
`assign_next` returns the no-work signal (the empty path), and every
non-empty returned path is a configured one. -/
theorem assign_coverage (ops : List LedgerOp) :
    (∀ pre post, (runOps initTracker ops).2 = pre ++ "" :: post →
      ∀ p ∈ configPaths, p ∈ pre) ∧
    (∀ o ∈ (runOps initTracker ops).2, o ≠ "" → o ∈ configPaths) := by
  have hsub : SubCfg initTracker := by
    constructor
    · intro x hx
      exact hx
    · intro x hx
      simp [initTracker] at hx
  constructor
  · intro pre post heq p hp
    exact runOps_covers ops initTracker hsub pre post heq p hp
  · exact runOps_outputs_config ops initTracker hsub

/-- Witness for C7: a concrete run that assigns and merges every play
and then receives the no-work signal; the coverage theorem places each
play in the prefix, and marks the first output as configured. -/
theorem assign_coverage_witness :
    "/cache/epub/27761/pg27761.txt" ∈
      ["/cache/epub/1513/pg1513.txt", "/cache/epub/27761/pg27761.txt",
       "/cache/epub/23042/pg23042.txt", "/cache/epub/1533/pg1533.txt",
       "/cache/epub/1531/pg1531.txt", "/cache/epub/1522/pg1522.txt",
       "/cache/epub/1526/pg1526.txt", "/cache/epub/1515/pg1515.txt"] ∧
    "/cache/epub/1513/pg1513.txt" ∈ configPaths :=
  ⟨(assign_coverage
      [.assign 0, .merge "/cache/epub/1513/pg1513.txt" [],
       .assign 0, .merge "/cache/epub/27761/pg27761.txt" [],
       .assign 0, .merge "/cache/epub/23042/pg23042.txt" [],
       .assign 0, .merge "/cache/epub/1533/pg1533.txt" [],
       .assign 0, .merge "/cache/epub/1531/pg1531.txt" [],
       .assign 0, .merge "/cache/epub/1522/pg1522.txt" [],
       .assign 0, .merge "/cache/epub/1526/pg1526.txt" [],
       .assign 0, .merge "/cache/epub/1515/pg1515.txt" [],
       .assign 0]).1
      ["/cache/epub/1513/pg1513.txt", "/cache/epub/27761/pg27761.txt",
       "/cache/epub/23042/pg23042.txt", "/cache/epub/1533/pg1533.txt",
       "/cache/epub/1531/pg1531.txt", "/cache/epub/1522/pg1522.txt",
       "/cache/epub/1526/pg1526.txt", "/cache/epub/1515/pg1515.txt"] []
      (by decide) "/cache/epub/27761/pg27761.txt" (by decide),
   (assign_coverage [.assign 0]).2 "/cache/epub/1513/pg1513.txt" (by decide)
      (by decide)⟩

/-! ## String engine lemmas for the codec proofs -/

theorem str_ext {a b : String} (h : a.data = b.data) : a = b := by
  cases a
  cases b
  exact congrArg String.mk h

theorem data_append (a b : String) : (a ++ b).data = a.data ++ b.data := by
  cases a
  cases b
  rfl

theorem mk_data (s : String) : (⟨s.data⟩ : String) = s := by
  cases s
  rfl

theorem length_data (s : String) : s.length = s.data.length := rfl

theorem startsWithL_append_self : ∀ (p r : List Char),
    startsWithL (p ++ r) p = true
  | [], r => by cases r <;> rfl
  | c :: cs, r => by
    show (c == c && startsWithL (cs ++ r) cs) = true
    rw [startsWithL_append_self cs r]
    simp

/-- A well-formed token: non-empty and free of whitespace. -/
def wfTok (s : String) : Prop :=
  s.data ≠ [] ∧ ∀ c ∈ s.data, isSpace c = false

instance (s : String) : Decidable (wfTok s) := by
  unfold wfTok
  infer_instance

theorem wfTok.length_pos {s : String} (h : wfTok s) : s.length > 0 := by
  rw [length_data]
  exact List.length_pos.mpr h.1

theorem wfTok.no_nl {s : String} (h : wfTok s) : ∀ c ∈ s.data, c ≠ '\n' := by
  intro c hc hnl
  have := h.2 c hc
  rw [hnl] at this
  simp [isSpace] at this

/-! ### The whitespace splitter -/

theorem swa_tok : ∀ (tok : List Char), (∀ c ∈ tok, isSpace c = false) →
    ∀ (cs acc : List Char), splitWsAux (tok ++ cs) acc = splitWsAux cs (acc ++ tok)
  | [], _, cs, acc => by simp
  | c :: tok, h, cs, acc => by
    have hc : isSpace c = false := h c (List.mem_cons_self c tok)
    have h1 : splitWsAux ((c :: tok) ++ cs) acc
        = splitWsAux (tok ++ cs) (acc ++ [c]) := by
      show splitWsAux (c :: (tok ++ cs)) acc = _
      simp [splitWsAux, hc]
    rw [h1, swa_tok tok (fun d hd => h d (List.mem_cons_of_mem c hd)) cs (acc ++ [c])]
    simp

theorem swa_sp {c : Char} (hc : isSpace c = true) {acc : List Char}
    (hacc : acc ≠ []) (cs : List Char) :
    splitWsAux (c :: cs) acc = ⟨acc⟩ :: splitWsAux cs [] := by
  simp [splitWsAux, hc, hacc]

theorem swa_term : ∀ (term : List Char), (∀ c ∈ term, isSpace c = true) →
    ∀ acc : List Char, splitWsAux term acc = if acc = [] then [] else [⟨acc⟩]
  | [], _, acc => rfl
  | c :: term, h, acc => by
    have hc : isSpace c = true := h c (List.mem_cons_self c term)
    have ih := swa_term term (fun d hd => h d (List.mem_cons_of_mem c hd))
    by_cases hacc : acc = []
    · simp [splitWsAux, hc, hacc, ih []]
    · simp [splitWsAux, hc, hacc, ih []]

/-- Splitting a `key value<term>` shaped line (data level, terminator
made only of whitespace). -/
theorem pySplit_kv_data (k v term : String) (hk : wfTok k) (hv : wfTok v)
    (hterm : ∀ c ∈ term.data, isSpace c = true) :
    splitWsAux (k.data ++ ([' '] ++ (v.data ++ term.data))) [] = [k, v] := by
  rw [swa_tok k.data hk.2]
  rw [List.nil_append, List.singleton_append]
  rw [swa_sp (by rfl) hk.1]
  rw [swa_tok v.data hv.2]
  rw [List.nil_append]
  rw [swa_term term.data hterm]
  simp [hv.1, mk_data]

/-- Splitting an `a b c<term>` shaped line (data level). -/
theorem pySplit_kv3_data (a b c term : String) (ha : wfTok a) (hb : wfTok b)
    (hc : wfTok c) (hterm : ∀ x ∈ term.data, isSpace x = true) :
    splitWsAux (a.data ++ ([' '] ++ (b.data ++ ([' '] ++ (c.data ++ term.data))))) []
      = [a, b, c] := by
  rw [swa_tok a.data ha.2]
  rw [List.nil_append, List.singleton_append]
  rw [swa_sp (by rfl) ha.1]
  rw [swa_tok b.data hb.2]
  rw [List.nil_append, List.singleton_append]
  rw [swa_sp (by rfl) hb.1]
  rw [swa_tok c.data hc.2]
  rw [List.nil_append]
  rw [swa_term term.data hterm]
  simp [hc.1, mk_data]

/-! ### The line splitter -/

theorem sla_noNl : ∀ (tok : List Char), (∀ c ∈ tok, c ≠ '\n') →
    ∀ (cs acc : List Char),
      splitLinesAux (tok ++ cs) acc = splitLinesAux cs (acc ++ tok)
  | [], _, cs, acc => by simp
  | c :: tok, h, cs, acc => by
    have hc : ¬ c = '\n' := h c (List.mem_cons_self c tok)
    have h1 : splitLinesAux ((c :: tok) ++ cs) acc
        = splitLinesAux (tok ++ cs) (acc ++ [c]) := by
      show splitLinesAux (c :: (tok ++ cs)) acc = _
      simp [splitLinesAux, hc]
    rw [h1, sla_noNl tok (fun d hd => h d (List.mem_cons_of_mem c hd)) cs (acc ++ [c])]
    simp

/-- `toLines` of a newline-terminated first line followed by the rest
of the stream. -/
theorem toLines_append_line (a b : String) (ha : ∀ c ∈ a.data, c ≠ '\n') :
    toLines ((a ++ "\n") ++ b) = (a ++ "\n") :: toLines b := by
  unfold toLines
  rw [data_append, data_append]
  rw [show ("\n" : String).data = ['\n'] from rfl]
  rw [List.append_assoc, sla_noNl a.data ha, List.nil_append]
  rw [show (['\n'] ++ b.data : List Char) = '\n' :: b.data from rfl]
  show (⟨a.data ++ ['\n']⟩ : String) :: splitLinesAux b.data [] = _
  congr 1

/-- `toLines` of a single newline-terminated line. -/
theorem toLines_last (a : String) (ha : ∀ c ∈ a.data, c ≠ '\n') :
    toLines (a ++ "\n") = [a ++ "\n"] := by
  unfold toLines
  rw [data_append]
  rw [show ("\n" : String).data = ['\n'] from rfl]
  rw [sla_noNl a.data ha ['\n'] [], List.nil_append]
  show (⟨a.data ++ ['\n']⟩ : String) :: splitLinesAux [] [] = _
  rw [show splitLinesAux [] [] = [] from rfl]
  congr 1

/-! ### Decimal printing and parsing round trip -/

theorem digit_facts {m : Nat} (h : m < 10) :
    (Nat.digitChar m).isDigit = true ∧ (Nat.digitChar m).toNat = 48 + m := by
  interval_cases m <;> exact ⟨by decide, by decide⟩

theorem space_not_digit {c : Char} (h : isSpace c = true) :
    c.isDigit = false := by
  simp only [isSpace, Bool.or_eq_true, decide_eq_true_eq] at h
  rcases h with ((((rfl | rfl) | rfl) | rfl) | rfl) | rfl <;> decide

theorem digit_not_space {c : Char} (h : c.isDigit = true) :
    isSpace c = false := by
  by_cases hs : isSpace c = true
  · rw [space_not_digit hs] at h
    exact absurd h (by simp)
  · simpa using hs

theorem digit_ne_minus {c : Char} (h : c.isDigit = true) : ¬ c = '-' := by
  rintro rfl
  exact absurd h (by decide)

theorem digit_ne_plus {c : Char} (h : c.isDigit = true) : ¬ c = '+' := by
  rintro rfl
  exact absurd h (by decide)

theorem natToDecAux_acc : ∀ (fuel n : Nat) (acc : List Char),
    natToDecAux fuel n acc = natToDecAux fuel n [] ++ acc
  | 0, _, _ => by simp [natToDecAux]
  | fuel + 1, n, acc => by
    by_cases h : n < 10
    · simp [natToDecAux, h]
    · simp only [natToDecAux, h, if_false]
      rw [natToDecAux_acc fuel (n / 10) (Nat.digitChar (n % 10) :: acc),
        natToDecAux_acc fuel (n / 10) [Nat.digitChar (n % 10)]]
      simp

theorem natToDecAux_fuel (n : Nat) : ∀ (f₁ f₂ : Nat), n < f₁ → n < f₂ →
    natToDecAux f₁ n [] = natToDecAux f₂ n [] := by
  induction n using Nat.strong_induction_on with
  | _ n ih =>
    intro f₁ f₂ h₁ h₂
    match f₁, f₂ with
    | g₁ + 1, g₂ + 1 =>
      by_cases h : n < 10
      · simp [natToDecAux, h]
      · simp only [natToDecAux, h, if_false]
        rw [natToDecAux_acc g₁, natToDecAux_acc g₂]
        have hlt : n / 10 < n := Nat.div_lt_self (by omega) (by omega)
        rw [ih (n / 10) hlt g₁ g₂ (by omega) (by omega)]

theorem natToDec_small {n : Nat} (h : n < 10) :
    natToDec n = [Nat.digitChar n] := by
  simp [natToDec, natToDecAux, h]

theorem natToDec_step {n : Nat} (h : 10 ≤ n) :
    natToDec n = natToDec (n / 10) ++ [Nat.digitChar (n % 10)] := by
  have h1 : natToDec n = natToDecAux n (n / 10) [Nat.digitChar (n % 10)] := by
    simp [natToDec, natToDecAux, Nat.not_lt.mpr h]
  rw [h1, natToDecAux_acc]
  have hlt : n / 10 < n := Nat.div_lt_self (by omega) (by omega)
  rw [natToDecAux_fuel (n / 10) n (n / 10 + 1) hlt (by omega)]
  rfl

theorem natToDec_ne_nil (n : Nat) : natToDec n ≠ [] := by
  by_cases h : n < 10
  · simp [natToDec_small h]
  · simp [natToDec_step (Nat.not_lt.mp h)]

theorem natToDec_digits (n : Nat) : ∀ c ∈ natToDec n, c.isDigit = true := by
  induction n using Nat.strong_induction_on with
  | _ n ih =>
    by_cases h : n < 10
    · rw [natToDec_small h]
      intro c hc
      rw [List.mem_singleton] at hc
      rw [hc]
      exact (digit_facts h).1
    · rw [natToDec_step (Nat.not_lt.mp h)]
      intro c hc
      rcases List.mem_append.mp hc with hc | hc
      · exact ih (n / 10) (Nat.div_lt_self (by omega) (by omega)) c hc
      · rw [List.mem_singleton] at hc
        rw [hc]
        exact (digit_facts (Nat.mod_lt n (by omega))).1

theorem natToDec_foldl (n : Nat) : ∀ a : Nat,
    (natToDec n).foldl (fun a c => a * 10 + (c.toNat - 48)) a
      = a * 10 ^ (natToDec n).length + n := by
  induction n using Nat.strong_induction_on with
  | _ n ih =>
    intro a
    by_cases h : n < 10
    · rw [natToDec_small h]
      simp [(digit_facts h).2]
    · have h10 : 10 ≤ n := Nat.not_lt.mp h
      rw [natToDec_step h10, List.foldl_append]
      rw [ih (n / 10) (Nat.div_lt_self (by omega) (by omega)) a]
      have hm : n % 10 < 10 := Nat.mod_lt n (by omega)
      simp only [List.foldl_cons, List.foldl_nil, (digit_facts hm).2,
        List.length_append, List.length_singleton]
      have hdm : n / 10 * 10 + n % 10 = n := by omega
      calc (a * 10 ^ (natToDec (n / 10)).length + n / 10) * 10 + (48 + n % 10 - 48)
          = a * (10 ^ (natToDec (n / 10)).length * 10) + (n / 10 * 10 + n % 10) := by
            ring_nf
            omega
        _ = a * 10 ^ ((natToDec (n / 10)).length + 1) + n := by
            rw [hdm, pow_succ]

theorem parseNatAux_digits : ∀ (ds : List Char), (∀ c ∈ ds, c.isDigit = true) →
    ∀ acc : Nat, parseNatAux acc ds
      = some (ds.foldl (fun a c => a * 10 + (c.toNat - 48)) acc)
  | [], _, acc => rfl
  | c :: ds, h, acc => by
    have hc : c.isDigit = true := h c (List.mem_cons_self c ds)
    rw [parseNatAux.eq_def]
    simp only [hc, if_true, List.foldl_cons]
    exact parseNatAux_digits ds (fun d hd => h d (List.mem_cons_of_mem c hd)) _

theorem parsePyNat_natToDec (n : Nat) : parsePyNat (natToDec n) = some n := by
  have hdig := natToDec_digits n
  have hfold := natToDec_foldl n 0
  rcases hnd : natToDec n with _ | ⟨c, cs⟩
  · exact absurd hnd (natToDec_ne_nil n)
  · rw [hnd] at hdig hfold
    have hc : c.isDigit = true := hdig c (List.mem_cons_self c cs)
    simp only [parsePyNat, hc, if_true]
    rw [parseNatAux_digits cs (fun d hd => hdig d (List.mem_cons_of_mem c hd))]
    rw [List.foldl_cons] at hfold
    simp only [Nat.zero_mul, Nat.zero_add] at hfold
    rw [hfold]

theorem parsePyInt_intToDec (i : Int) : parsePyInt (intToDec i) = some i := by
  by_cases hi : i < 0
  · have h1 : intToDec i = ⟨'-' :: natToDec i.natAbs⟩ := by
      simp [intToDec, hi]
    rw [h1]
    simp only [parsePyInt]
    simp [parsePyNat_natToDec, Int.natCast_natAbs, abs_of_neg hi]
  · have h1 : intToDec i = ⟨natToDec i.natAbs⟩ := by
      simp [intToDec, hi]
    rw [h1]
    have hdig := natToDec_digits i.natAbs
    rcases hnd : natToDec i.natAbs with _ | ⟨c, cs⟩
    · exact absurd hnd (natToDec_ne_nil _)
    · have hc : c.isDigit = true := by
        rw [hnd] at hdig
        exact hdig c (List.mem_cons_self c cs)
      simp only [parsePyInt]
      rw [if_neg (digit_ne_minus hc), if_neg (digit_ne_plus hc)]
      rw [← hnd, parsePyNat_natToDec]
      simp [Int.natCast_natAbs, abs_of_nonneg (le_of_not_lt hi)]

theorem intToDec_wfTok (i : Int) : wfTok (intToDec i) := by
  by_cases hi : i < 0
  · have : intToDec i = ⟨'-' :: natToDec i.natAbs⟩ := by
      simp [intToDec, hi]
    rw [this]
    constructor
    · simp
    · intro c hc
      rcases List.mem_cons.mp hc with rfl | hc
      · decide
      · exact digit_not_space (natToDec_digits _ c hc)
  · have : intToDec i = ⟨natToDec i.natAbs⟩ := by
      simp [intToDec, hi]
    rw [this]
    constructor
    · simpa using natToDec_ne_nil i.natAbs
    · intro c hc
      exact digit_not_space (natToDec_digits _ c hc)

/-! ### Dispatch helper lemmas -/

theorem str_append_assoc (a b c : String) : (a ++ b) ++ c = a ++ (b ++ c) := by
  apply str_ext
  simp [data_append]

theorem pyStartsWith_append (p s : String) : pyStartsWith (p ++ s) p = true := by
  unfold pyStartsWith
  rw [data_append]
  exact startsWithL_append_self p.data s.data

theorem sw_ackreq_get (s : String) :
    pyStartsWith ("ACK_REQWORK " ++ s) "GET " = false := by
  unfold pyStartsWith
  rw [data_append]
  rfl

theorem sw_ackreq_reqwork (s : String) :
    pyStartsWith ("ACK_REQWORK " ++ s) "REQWORK" = false := by
  unfold pyStartsWith
  rw [data_append]
  rfl

theorem sw_wcomp_get (s : String) :
    pyStartsWith ("REQ_WORK_COMP " ++ s) "GET " = false := by
  unfold pyStartsWith
  rw [data_append]
  rfl

theorem sw_wcomp_reqwork (s : String) :
    pyStartsWith ("REQ_WORK_COMP " ++ s) "REQWORK" = false := by
  unfold pyStartsWith
  rw [data_append]
  rfl

theorem sw_wcomp_ackreq (s : String) :
    pyStartsWith ("REQ_WORK_COMP " ++ s) "ACK_REQWORK " = false := by
  unfold pyStartsWith
  rw [data_append]
  rfl

theorem sw_reqwork_get (s : String) :
    pyStartsWith ("REQWORK" ++ s) "GET " = false := by
  unfold pyStartsWith
  rw [data_append]
  rfl

theorem sw_ackcomp_get (s : String) :
    pyStartsWith ("ACK_WORK_COMP" ++ s) "GET " = false := by
  unfold pyStartsWith
  rw [data_append]
  rfl

theorem sw_ackcomp_reqwork (s : String) :
    pyStartsWith ("ACK_WORK_COMP" ++ s) "REQWORK" = false := by
  unfold pyStartsWith
  rw [data_append]
  rfl

theorem sw_ackcomp_ackreq (s : String) :
    pyStartsWith ("ACK_WORK_COMP" ++ s) "ACK_REQWORK " = false := by
  unfold pyStartsWith
  rw [data_append]
  rfl

theorem sw_ackcomp_wcomp (s : String) :
    pyStartsWith ("ACK_WORK_COMP" ++ s) "REQ_WORK_COMP " = false := by
  unfold pyStartsWith
  rw [data_append]
  rfl

theorem sw_get_get (s : String) :
    pyStartsWith ("GET " ++ s) "GET " = true :=
  pyStartsWith_append "GET " s

/-- One-step reduction of the decode dispatcher on a non-empty
stream. -/
theorem deserialize_cons (l : String) (rest : List String) :
    Message.deserialize (l :: rest) =
      (if pyStartsWith l "GET " = true then deserializeHTTPGet l rest
       else if pyStartsWith l "REQWORK" = true then deserializeGetWork l rest
       else if pyStartsWith l "ACK_REQWORK " = true then
         deserializeGetWorkResponse l rest
       else if pyStartsWith l "REQ_WORK_COMP " = true then
         deserializeWorkComplete l rest
       else if pyStartsWith l "ACK_WORK_COMP" = true then
         deserializeWorkCompleteResponse l rest
       else .error ()) := rfl

theorem dictSet_append {d : List (String × Int)} {k : String}
    (h : ∀ p ∈ d, p.1 ≠ k) (v : Int) : dictSet d k v = d ++ [(k, v)] := by
  have hany : d.any (fun p => p.1 = k) = false := by
    rw [List.any_eq_false]
    intro p hp
    simpa using h p hp
  unfold dictSet
  rw [hany]
  simp

/-! ### Splitting the concrete line shapes -/

theorem no_nl_lit_append {lit : String} (s : String)
    (hlit : ∀ x ∈ lit.data, x ≠ '\n') (hs : ∀ x ∈ s.data, x ≠ '\n') :
    ∀ c ∈ (lit ++ s).data, c ≠ '\n' := by
  intro c hc
  rw [data_append] at hc
  rcases List.mem_append.mp hc with h | h
  · exact hlit c h
  · exact hs c h

theorem str_ne_of_data_length {a b : String}
    (h : a.data.length ≠ b.data.length) : a ≠ b := fun he => h (by rw [he])

theorem pySplit_host (h : String) (hh : wfTok h) :
    pySplit (("Host: " ++ h) ++ "\n") = ["Host:", h] := by
  unfold pySplit
  simp only [data_append, List.append_assoc]
  exact pySplit_kv_data "Host:" h "\n" (by decide) hh (by decide)

theorem pySplit_path (p : String) (hp : wfTok p) :
    pySplit (("Path: " ++ p) ++ "\n") = ["Path:", p] := by
  unfold pySplit
  simp only [data_append, List.append_assoc]
  exact pySplit_kv_data "Path:" p "\n" (by decide) hp (by decide)

theorem pySplit_word (w t : String) (hw : wfTok w) (ht : wfTok t) :
    pySplit (((w ++ " ") ++ t) ++ "\n") = [w, t] := by
  unfold pySplit
  simp only [data_append, List.append_assoc]
  exact pySplit_kv_data w t "\n" hw ht (by decide)

theorem pySplit_wcfirst (p : String) (hp : wfTok p) :
    pySplit ("REQ_WORK_COMP " ++ (p ++ "\n")) = ["REQ_WORK_COMP", p] := by
  unfold pySplit
  simp only [data_append, List.append_assoc]
  exact pySplit_kv_data "REQ_WORK_COMP" p "\n" (by decide) hp (by decide)

theorem pySplit_http_first (p : String) (hp : wfTok p) :
    pySplit ("GET " ++ (p ++ (" HTTP/1.1\x0d" ++ "\n"))) = ["GET", p, "HTTP/1.1"] := by
  unfold pySplit
  simp only [data_append, List.append_assoc]
  exact pySplit_kv3_data "GET" p "HTTP/1.1" "\x0d\n" (by decide) hp (by decide) (by decide)

theorem pySplit_http_host (h : String) (hh : wfTok h) :
    pySplit ((("Host: " ++ h) ++ "\x0d") ++ "\n") = ["Host:", h] := by
  unfold pySplit
  simp only [data_append, List.append_assoc]
  exact pySplit_kv_data "Host:" h "\x0d\n" (by decide) hh (by decide)

/-! ### Round trips of the variable-content messages -/

theorem gwrLoop_step (host path line : String) (rest : List String) (k v : String)
    (hsplit : pySplit line = [k, v]) (hlen : line.length > 0) :
    gwrLoop host path (line :: rest) =
      (if k = "Host:" then
        if v.length > 0 ∧ path.length > 0 then .ok (.GetWorkResponse v path)
        else gwrLoop v path rest
      else if k = "Path:" then
        if host.length > 0 ∧ v.length > 0 then .ok (.GetWorkResponse host v)
        else gwrLoop host v rest
      else
        if host.length > 0 ∧ path.length > 0 then .ok (.GetWorkResponse host path)
        else gwrLoop host path rest) := by
  simp only [gwrLoop, hsplit, hlen, if_true]

theorem roundtrip_gwr_work (host path : String) (hh : wfTok host) (hp : wfTok path) :
    Message.deserialize (toLines (Message.serialize (.GetWorkResponse host path)))
      = .ok (.GetWorkResponse host path) := by
  have hser : Message.serialize (.GetWorkResponse host path) =
      (("ACK_REQWORK " ++ "Download and analyze the following.") ++ "\n") ++
        (((("Host: " ++ host) ++ "\n")) ++ (("Path: " ++ path) ++ "\n")) := by
    simp only [Message.serialize, if_pos (And.intro hh.length_pos hp.length_pos)]
    apply str_ext
    simp [data_append, List.append_assoc]
  have hlen2 : (("Host: " ++ host) ++ "\n").length > 0 := by
    rw [length_data, data_append]
    simp
  have hlen3 : (("Path: " ++ path) ++ "\n").length > 0 := by
    rw [length_data, data_append]
    simp
  rw [hser]
  rw [toLines_append_line _ _ (by decide)]
  rw [toLines_append_line _ _
    (no_nl_lit_append host (by decide) (fun c hc => hh.no_nl c hc))]
  rw [toLines_last _
    (no_nl_lit_append path (by decide) (fun c hc => hp.no_nl c hc))]
  rw [deserialize_cons]
  rw [str_append_assoc "ACK_REQWORK "]
  rw [sw_ackreq_get, sw_ackreq_reqwork, pyStartsWith_append]
  simp only [Bool.false_eq_true, if_false, if_true]
  unfold deserializeGetWorkResponse
  rw [pyStartsWith_append]
  simp only [if_true]
  rw [if_neg (by decide :
    ¬ pyFind ("ACK_REQWORK " ++ ("Download and analyze the following." ++ "\n"))
      "There\x27s no work left" > 0)]
  rw [gwrLoop_step _ _ _ _ _ _ (pySplit_host host hh) hlen2]
  rw [if_pos rfl]
  rw [if_neg (by simp : ¬ (host.length > 0 ∧ ("" : String).length > 0))]
  rw [gwrLoop_step _ _ _ _ _ _ (pySplit_path path hp) hlen3]
  rw [if_neg (by decide : ¬ ("Path:" : String) = "Host:")]
  rw [if_pos rfl]
  rw [if_pos (And.intro hh.length_pos hp.length_pos)]

theorem deserializeHTTPGet_eval (firstline l2 : String) (rest : List String)
    (path host : String)
    (hsw : pyStartsWith firstline "GET " = true)
    (h1 : pySplit firstline = ["GET", path, "HTTP/1.1"])
    (h2 : pySplit l2 = ["Host:", host]) :
    deserializeHTTPGet firstline (l2 :: rest) = .ok (.HTTPGetRequest host path) := by
  simp only [deserializeHTTPGet, hsw, if_true, h1, readline, h2]

theorem roundtrip_http (host path : String) (hh : wfTok host) (hp : wfTok path) :
    Message.deserialize (toLines (Message.serialize (.HTTPGetRequest host path)))
      = .ok (.HTTPGetRequest host path) := by
  have hnl1 : ∀ c ∈ (("GET " ++ path) ++ " HTTP/1.1\x0d").data, c ≠ '\n' := by
    intro c hc
    rw [data_append, data_append] at hc
    rcases List.mem_append.mp hc with h | h
    · rcases List.mem_append.mp h with h | h
      · exact (by decide : ∀ x ∈ ("GET " : String).data, x ≠ '\n') c h
      · exact hp.no_nl c h
    · exact (by decide : ∀ x ∈ (" HTTP/1.1\x0d" : String).data, x ≠ '\n') c h
  have hnl2 : ∀ c ∈ (("Host: " ++ host) ++ "\x0d").data, c ≠ '\n' := by
    intro c hc
    rw [data_append, data_append] at hc
    rcases List.mem_append.mp hc with h | h
    · rcases List.mem_append.mp h with h | h
      · exact (by decide : ∀ x ∈ ("Host: " : String).data, x ≠ '\n') c h
      · exact hh.no_nl c h
    · exact (by decide : ∀ x ∈ ("\x0d" : String).data, x ≠ '\n') c h
  have hser : Message.serialize (.HTTPGetRequest host path) =
      ((("GET " ++ path) ++ " HTTP/1.1\x0d") ++ "\n") ++
        (((("Host: " ++ host) ++ "\x0d") ++ "\n") ++ ("\x0d" ++ "\n")) := by
    apply str_ext
    simp [Message.serialize, data_append, List.append_assoc]
  rw [hser]
  rw [toLines_append_line _ _ hnl1]
  rw [toLines_append_line _ _ hnl2]
  rw [toLines_last _ (by decide)]
  rw [deserialize_cons]
  rw [str_append_assoc ("GET " ++ path), str_append_assoc "GET "]
  rw [sw_get_get]
  simp only [if_true]
  exact deserializeHTTPGet_eval _ _ _ path host (sw_get_get _)
    (pySplit_http_first path hp) (pySplit_http_host host hh)

theorem wcrLoop_step (path : String) (acc : List (String × Int)) (line : String)
    (rest : List String) (w t : String) (c : Int)
    (hne : ¬ line = "\n") (hsplit : pySplit line = [w, t])
    (hparse : parsePyInt t = some c) :
    wcrLoop path acc (line :: rest) = wcrLoop path (dictSet acc w c) rest := by
  simp only [wcrLoop, hsplit, hne, if_false, hparse]

theorem toLines_wcBody : ∀ (wc : List (String × Int)), (∀ q ∈ wc, wfTok q.1) →
    toLines (wcBody wc ++ "\n")
      = wc.map (fun q => ((q.1 ++ " ") ++ intToDec q.2) ++ "\n") ++ ["\n"]
  | [], _ => by
    rw [show wcBody [] ++ "\n" = "\n" from by
      apply str_ext
      simp [wcBody, data_append]]
    simp only [List.map_nil, List.nil_append]
    decide
  | (w, c) :: rest, h => by
    have hw : wfTok w := h (w, c) (List.mem_cons_self _ _)
    have hser : wcBody ((w, c) :: rest) ++ "\n"
        = (((w ++ " ") ++ intToDec c) ++ "\n") ++ (wcBody rest ++ "\n") := by
      apply str_ext
      simp [wcBody, data_append, List.append_assoc]
    have hnl : ∀ x ∈ ((w ++ " ") ++ intToDec c).data, x ≠ '\n' := by
      intro x hx
      rw [data_append, data_append] at hx
      rcases List.mem_append.mp hx with hx | hx
      · rcases List.mem_append.mp hx with hx | hx
        · exact hw.no_nl x hx
        · exact (by decide : ∀ y ∈ (" " : String).data, y ≠ '\n') x hx
      · have hsp := (intToDec_wfTok c).2 x hx
        intro heq
        rw [heq] at hsp
        exact absurd hsp (by decide)
    rw [hser, toLines_append_line _ _ hnl,
      toLines_wcBody rest (fun q hq => h q (List.mem_cons_of_mem _ hq))]
    simp

theorem wcBody_rt (path : String) : ∀ (wc acc : List (String × Int)),
    (∀ q ∈ wc, wfTok q.1) →
    (∀ q ∈ wc, ∀ r ∈ acc, r.1 ≠ q.1) →
    (wc.map Prod.fst).Nodup →
    wcrLoop path acc
        (wc.map (fun q => ((q.1 ++ " ") ++ intToDec q.2) ++ "\n") ++ ["\n"])
      = .ok (.WorkCompleteRequest path (acc ++ wc))
  | [], acc, _, _, _ => by
    simp [wcrLoop]
  | (w, c) :: rest, acc, hwf, hfresh, hnd => by
    have hw : wfTok w := hwf (w, c) (List.mem_cons_self _ _)
    have hwnotin : w ∉ rest.map Prod.fst := by
      have : ((w, c) :: rest).map Prod.fst = w :: rest.map Prod.fst := by simp
      rw [this] at hnd
      exact (List.nodup_cons.mp hnd).1
    have hne : ¬ (((w ++ " ") ++ intToDec c) ++ "\n") = "\n" := by
      apply str_ne_of_data_length
      rw [data_append, data_append, data_append]
      simp only [List.length_append]
      have h1 : w.data.length > 0 := List.length_pos.mpr hw.1
      have h2 : (" " : String).data.length = 1 := by decide
      have h3 : ("\n" : String).data.length = 1 := by decide
      omega
    have hfr : ∀ r ∈ acc, r.1 ≠ w :=
      fun r hr => hfresh (w, c) (List.mem_cons_self _ _) r hr
    rw [List.map_cons, List.cons_append]
    rw [wcrLoop_step path acc _ _ w (intToDec c) c hne
      (pySplit_word w (intToDec c) hw (intToDec_wfTok c)) (parsePyInt_intToDec c)]
    rw [dictSet_append hfr c]
    rw [wcBody_rt path rest (acc ++ [(w, c)])
      (fun q hq => hwf q (List.mem_cons_of_mem _ hq))
      (by
        intro q hq r hr
        rcases List.mem_append.mp hr with hr | hr
        · exact hfresh q (List.mem_cons_of_mem _ hq) r hr
        · rw [List.mem_singleton] at hr
          rw [hr]
          intro heq
          apply hwnotin
          rw [show w = q.1 from heq]
          exact List.mem_map_of_mem Prod.fst hq)
      (by
        have : ((w, c) :: rest).map Prod.fst = w :: rest.map Prod.fst := by simp
        rw [this] at hnd
        exact (List.nodup_cons.mp hnd).2)]
    simp

theorem roundtrip_wcr (path : String) (wc : List (String × Int)) (hp : wfTok path)
    (hwf : ∀ q ∈ wc, wfTok q.1) (hnd : (wc.map Prod.fst).Nodup) :
    Message.deserialize (toLines (Message.serialize (.WorkCompleteRequest path wc)))
      = .ok (.WorkCompleteRequest path wc) := by
  have hser : Message.serialize (.WorkCompleteRequest path wc)
      = (("REQ_WORK_COMP " ++ path) ++ "\n") ++ (wcBody wc ++ "\n") := by
    apply str_ext
    simp [Message.serialize, data_append, List.append_assoc]
  rw [hser]
  rw [toLines_append_line _ _
    (no_nl_lit_append path (by decide) (fun c hc => hp.no_nl c hc))]
  rw [toLines_wcBody wc hwf]
  rw [deserialize_cons]
  rw [str_append_assoc "REQ_WORK_COMP "]
  rw [sw_wcomp_get, sw_wcomp_reqwork, sw_wcomp_ackreq, pyStartsWith_append]
  simp only [Bool.false_eq_true, if_false, if_true]
  simp only [deserializeWorkComplete, pyStartsWith_append, if_true,
    pySplit_wcfirst path hp]
  have hdone := wcBody_rt path wc []
    hwf (fun q _ r hr => absurd hr (List.not_mem_nil r)) hnd
  simpa using hdone

/-- Claim C5 (amended): round-trip at the codec holds for every
constructible message whose fields are well-formed tokens (non-empty
and whitespace-free; for a work-available `GetWorkResponse` both fields
non-empty, for `WorkCompleteRequest` distinct words), and for the
canonical no-work `GetWorkResponse` with both fields empty; a
`GetWorkResponse` with exactly one field empty does not round-trip (see
the counterexample). -/
theorem codec_roundtrip (host path : String) (wc : List (String × Int)) :
    (wfTok host → wfTok path →
      Message.deserialize (toLines (Message.serialize (.HTTPGetRequest host path)))
        = .ok (.HTTPGetRequest host path)) ∧
    Message.deserialize (toLines (Message.serialize .GetWorkRequest))
      = .ok .GetWorkRequest ∧
    (wfTok host → wfTok path →
      Message.deserialize (toLines (Message.serialize (.GetWorkResponse host path)))
        = .ok (.GetWorkResponse host path)) ∧
    Message.deserialize (toLines (Message.serialize (.GetWorkResponse "" "")))
      = .ok (.GetWorkResponse "" "") ∧
    (wfTok path → (∀ q ∈ wc, wfTok q.1) → (wc.map Prod.fst).Nodup →
      Message.deserialize (toLines (Message.serialize (.WorkCompleteRequest path wc)))
        = .ok (.WorkCompleteRequest path wc)) ∧
    Message.deserialize (toLines (Message.serialize .WorkCompleteResponse))
      = .ok .WorkCompleteResponse :=
  ⟨fun hh hp => roundtrip_http host path hh hp,
   by decide,
   fun hh hp => roundtrip_gwr_work host path hh hp,
   by decide,
   fun hp hwf hnd => roundtrip_wcr path wc hp hwf hnd,
   by decide⟩

/-- Counterexample to claim C5 as stated: the constructible message
`GetWorkResponse "h" ""` serializes to the no-work form, so decoding
its encoding yields `GetWorkResponse "" ""`, which differs from the
original in the `host` field. -/
theorem codec_roundtrip_counterexample :
    Message.deserialize (toLines (Message.serialize (.GetWorkResponse "h" "")))
      = .ok (.GetWorkResponse "" "") ∧
    Message.GetWorkResponse "" "" ≠ .GetWorkResponse "h" "" := by decide

/-- Witness for C5: the amended round trip at concrete well-formed
messages of the three variable-content variants. -/
theorem codec_roundtrip_witness :
    Message.deserialize
        (toLines (Message.serialize (.HTTPGetRequest "some-host" "some-path")))
      = .ok (.HTTPGetRequest "some-host" "some-path") ∧
    Message.deserialize
        (toLines (Message.serialize (.GetWorkResponse "some-host" "some-path")))
      = .ok (.GetWorkResponse "some-host" "some-path") ∧
    Message.deserialize
        (toLines (Message.serialize
          (.WorkCompleteRequest "p" [("romeo", 16), ("juliet", 18)])))
      = .ok (.WorkCompleteRequest "p" [("romeo", 16), ("juliet", 18)]) :=
  ⟨(codec_roundtrip "some-host" "some-path" []).1 (by decide) (by decide),
   (codec_roundtrip "some-host" "some-path" []).2.2.1 (by decide) (by decide),
   (codec_roundtrip "" "p" [("romeo", 16), ("juliet", 18)]).2.2.2.2.1
     (by decide) (by decide) (by decide)⟩

/-- Counterexample to claim C8 as stated: the count token `-3` is not a
non-negative integer, yet the body line `foo -3` decodes successfully
(Python's `int` accepts a sign), producing a negative count instead of
raising a DecodeError. -/
theorem wcr_negative_count_decodes :
    Message.deserialize ["REQ_WORK_COMP p\n", "foo -3\n", "\n"]
      = .ok (.WorkCompleteRequest "p" [("foo", -3)]) := by decide

/-- Claim C8 (amended): when decoding a `WorkCompleteRequest` body,
each count token parses as a possibly signed integer — any serialized
signed count is accepted — while a body line that does not split into
exactly two tokens, or whose count token fails integer parsing, raises
a DecodeError. -/
theorem wcr_count_parsing (path line w : String) (i : Int) (rest : List String) :
    (wfTok path → ¬ line = "\n" →
      (∀ a b, pySplit line = [a, b] → parsePyInt b = none) →
      Message.deserialize (("REQ_WORK_COMP " ++ (path ++ "\n")) :: line :: rest)
        = .error ()) ∧
    (wfTok path → wfTok w →
      Message.deserialize ["REQ_WORK_COMP " ++ (path ++ "\n"),
          ((w ++ " ") ++ intToDec i) ++ "\n", "\n"]
        = .ok (.WorkCompleteRequest path [(w, i)])) := by
  constructor
  · intro hpath hne hbad
    rw [deserialize_cons]
    rw [sw_wcomp_get, sw_wcomp_reqwork, sw_wcomp_ackreq, pyStartsWith_append]
    simp only [Bool.false_eq_true, if_false, if_true]
    simp only [deserializeWorkComplete, pyStartsWith_append, if_true,
      pySplit_wcfirst path hpath]
    simp only [wcrLoop, hne, if_false]
    rcases hsp : pySplit line with _ | ⟨a, _ | ⟨b, _ | ⟨c3, l3⟩⟩⟩
    · rfl
    · rfl
    · show (match parsePyInt b with
        | some c => wcrLoop path (dictSet [] a c) rest
        | none => Except.error ()) = Except.error ()
      rw [hbad a b hsp]
    · rfl
  · intro hpath hw
    rw [deserialize_cons]
    rw [sw_wcomp_get, sw_wcomp_reqwork, sw_wcomp_ackreq, pyStartsWith_append]
    simp only [Bool.false_eq_true, if_false, if_true]
    simp only [deserializeWorkComplete, pyStartsWith_append, if_true,
      pySplit_wcfirst path hpath]
    have hne : ¬ (((w ++ " ") ++ intToDec i) ++ "\n") = "\n" := by
      apply str_ne_of_data_length
      rw [data_append, data_append, data_append]
      simp only [List.length_append]
      have h1 : w.data.length > 0 := List.length_pos.mpr hw.1
      have h2 : (" " : String).data.length = 1 := by decide
      have h3 : ("\n" : String).data.length = 1 := by decide
      omega
    rw [wcrLoop_step path [] _ _ w (intToDec i) i hne
      (pySplit_word w (intToDec i) hw (intToDec_wfTok i)) (parsePyInt_intToDec i)]
    rw [dictSet_append (fun r hr => absurd hr (List.not_mem_nil r)) i]
    simp [wcrLoop]

/-- Witness for C8: a malformed count token raises, and the serialized
count `-3` decodes back to `-3`. -/
theorem wcr_count_parsing_witness :
    Message.deserialize ["REQ_WORK_COMP " ++ ("p" ++ "\n"), "foo bar\n"]
      = .error () ∧
    Message.deserialize ["REQ_WORK_COMP " ++ ("p" ++ "\n"),
        (("foo" ++ " ") ++ intToDec (-3)) ++ "\n", "\n"]
      = .ok (.WorkCompleteRequest "p" [("foo", -3)]) :=
  ⟨(wcr_count_parsing "p" "foo bar\n" "x" 0 []).1 (by decide) (by decide)
    (by
      intro a b h
      rw [show pySplit "foo bar\n" = ["foo", "bar"] from by decide] at h
      simp only [List.cons.injEq] at h
      rw [← h.2.1]
      decide),
   (wcr_count_parsing "p" "" "foo" (-3) []).2 (by decide) (by decide)⟩

/-- Counterexample to claim C9 as stated: constructing a work-available
`GetWorkResponse` with a non-empty host and an empty path is not
rejected at construction time — the object exists and keeps its fields
(it differs from the canonical no-work message) — and only its
serialization collapses to the no-work form. -/
theorem workoffer_not_rejected :
    Message.GetWorkResponse "h" "" ≠ .GetWorkResponse "" "" ∧
    Message.serialize (.GetWorkResponse "h" "")
      = "ACK_REQWORK " ++ "There\x27s no work left.\n" := by decide

/-- Claim C9 (amended): construction of a `GetWorkResponse` is not
validated; instead `serialize` guards the wire form: it produces the
work-available form exactly when both host and path are non-empty, and
the no-work encoding otherwise, so a work form carrying only one of
Host/Path is never emitted. -/
theorem workoffer_serialize_guard (host path : String) :
    (host.length > 0 ∧ path.length > 0 →
      Message.serialize (.GetWorkResponse host path)
        = "ACK_REQWORK " ++ ("Download and analyze the following.\n" ++
            "Host: " ++ host ++ "\n" ++ "Path: " ++ path ++ "\n")) ∧
    (¬ (host.length > 0 ∧ path.length > 0) →
      Message.serialize (.GetWorkResponse host path)
        = "ACK_REQWORK " ++ "There\x27s no work left.\n") := by
  constructor
  · intro h
    simp only [Message.serialize, if_pos h]
  · intro h
    simp only [Message.serialize, if_neg h]

/-- Witness for C9: the serialization guard evaluated at a full offer
and at an offer with empty path. -/
theorem workoffer_serialize_guard_witness :
    Message.serialize (.GetWorkResponse "h" "p")
      = "ACK_REQWORK " ++ ("Download and analyze the following.\n" ++
          "Host: " ++ "h" ++ "\n" ++ "Path: " ++ "p" ++ "\n") ∧
    Message.serialize (.GetWorkResponse "h" "")
      = "ACK_REQWORK " ++ "There\x27s no work left.\n" :=
  ⟨(workoffer_serialize_guard "h" "p").1 (by decide),
   (workoffer_serialize_guard "h" "").2 (by simp)⟩

/-- Claim C10: decode dispatch is prefix-based, not exact-match: a
first line consisting of the literal `REQWORK` (resp. `ACK_WORK_COMP`)
followed by arbitrary extra text decodes successfully as a
`GetWorkRequest` (resp. `WorkCompleteResponse`), the trailing text
being ignored. -/
theorem decode_dispatch_by_part (s : String) (rest : List String)
    (_hnl : ∀ c ∈ s.data, c ≠ '\n') :
    Message.deserialize (("REQWORK" ++ s) :: rest) = .ok .GetWorkRequest ∧
    Message.deserialize (("ACK_WORK_COMP" ++ s) :: rest)
      = .ok .WorkCompleteResponse := by
  constructor
  · rw [deserialize_cons, sw_reqwork_get, pyStartsWith_append]
    simp only [Bool.false_eq_true, if_false, if_true]
    unfold deserializeGetWork
    rw [pyStartsWith_append]
    simp
  · rw [deserialize_cons, sw_ackcomp_get, sw_ackcomp_reqwork, sw_ackcomp_ackreq,
      sw_ackcomp_wcomp, pyStartsWith_append]
    simp only [Bool.false_eq_true, if_false, if_true]
    unfold deserializeWorkCompleteResponse
    rw [pyStartsWith_append]
    simp

/-- Witness for C10: both prefix-extended first lines decoded at a
concrete junk suffix. -/
theorem decode_dispatch_by_part_witness :
    Message.deserialize [("REQWORK" ++ " junk") ] = .ok .GetWorkRequest ∧
    Message.deserialize [("ACK_WORK_COMP" ++ " junk")] = .ok .WorkCompleteResponse :=
  decode_dispatch_by_part " junk" [] (by decide)

end Shakespeare
